import Mathlib

set_option maxHeartbeats 1000000
set_option maxRecDepth 4000

/-!
Shallow embedding of the Sudoku wave-function-collapse solver
(`src/sudoku.py`): candidate grids are lists of lists of finite sets of
naturals, the deduction rule (`Focus.calculate_options`), the propagator
(`Sudoku.propagate_constraints` / `Sudoku.simplify`), the branch selector
(`Sudoku.find_minimum_set`), the backtracking search (`Sudoku.solve`), the
parser (`Puzzle.__init__`) and the top-level `solve` are translated
one-to-one.  Python's unbounded `while`/recursion becomes fuel-indexed
recursion; sets of small integers become `Finset ℕ`.
-/

abbrev Cell : Type := Finset ℕ
abbrev SudokuGrid : Type := List (List Cell)

/-- `Configuration.other_row_coords`: coordinates in the row, excluding the
current cell, in increasing column order. -/
def other_row_coords (N row col : ℕ) : List (ℕ × ℕ) :=
  ((List.range N).filter (fun c => c ≠ col)).map (fun c => (row, c))

/-- `Configuration.other_col_coords`. -/
def other_col_coords (N row col : ℕ) : List (ℕ × ℕ) :=
  ((List.range N).filter (fun r => r ≠ row)).map (fun r => (r, col))

/-- `Configuration.other_box_coords`: the k×k box holding `(row, col)`,
excluding the cell itself. -/
def other_box_coords (k row col : ℕ) : List (ℕ × ℕ) :=
  (((List.range k).flatMap (fun dr =>
      (List.range k).map (fun dc => (row / k * k + dr, col / k * k + dc))))).filter
    (fun p => ¬(p.1 = row ∧ p.2 = col))

/-- `Sudoku.get` (out-of-range access is modelled as the empty set; the
algorithm only reads in-range coordinates on well-formed grids). -/
def get (g : SudokuGrid) (row col : ℕ) : Cell := (g.getD row []).getD col ∅

/-- `Sudoku.set_choice`: collapse one cell to a single chosen value. -/
def set_choice (g : SudokuGrid) (row col value : ℕ) : SudokuGrid :=
  g.set row ((g.getD row []).set col {value})

/-- `set().union(*values)`. -/
def unionAll (l : List Cell) : Cell := l.foldl (· ∪ ·) ∅

/-- `Forcing.restrict_by_value_group`, with the forced-choices set
`current - union(values)` already computed. -/
def restrictF (st : Option Cell) (fc : Cell) : Option Cell :=
  if fc.card = 1 then
    match st with
    | none => some fc
    | some f => if f ≠ fc then some ∅ else some f
  else if 1 < fc.card then some ∅
  else st

/-- `Forcing.restrict_by_value_group`. -/
def restrict_by_value_group (current : Cell) (values : List Cell) (st : Option Cell) :
    Option Cell :=
  restrictF st (current \ unionAll values)

/-- Candidate sets of the other cells in the row of `(r, c)`. -/
def row_values (k : ℕ) (g : SudokuGrid) (r c : ℕ) : List Cell :=
  (other_row_coords (k * k) r c).map (fun p => get g p.1 p.2)

/-- Candidate sets of the other cells in the column of `(r, c)`. -/
def col_values (k : ℕ) (g : SudokuGrid) (r c : ℕ) : List Cell :=
  (other_col_coords (k * k) r c).map (fun p => get g p.1 p.2)

/-- Candidate sets of the other cells in the box of `(r, c)`. -/
def box_values (k : ℕ) (g : SudokuGrid) (r c : ℕ) : List Cell :=
  (other_box_coords k r c).map (fun p => get g p.1 p.2)

/-- `Focus.value_groups`: row group, then column group, then box group. -/
def value_groups (k : ℕ) (g : SudokuGrid) (r c : ℕ) : List (List Cell) :=
  [row_values k g r c, col_values k g r c, box_values k g r c]

/-- `{next(iter(v)) for v in values if len(v) == 1}`: the union of the
singleton candidate sets of a group. -/
def singletonVals (values : List Cell) : Cell :=
  values.foldl (fun acc v => if v.card = 1 then acc ∪ v else acc) ∅

/-- The naked-single elimination loop at the end of
`Focus.calculate_options`, short-circuiting on the empty set. -/
def elimLoop : Cell → List (List Cell) → Cell
  | current, [] => current
  | current, values :: rest =>
    if current = ∅ then current else elimLoop (current \ singletonVals values) rest

/-- The `Forcing` accumulator after the three peer groups of `(r, c)` have
been fed to `restrict_by_value_group` (the first loop of
`Focus.calculate_options`). -/
def forcingResult (k : ℕ) (g : SudokuGrid) (r c : ℕ) : Option Cell :=
  (value_groups k g r c).foldl
    (fun st values => restrict_by_value_group (get g r c) values st) none

/-- `Focus.calculate_options`: hidden-single forcing over the three peer
groups, intersection with the accumulated forced value when one exists,
then naked-single elimination. -/
def calculate_options (k : ℕ) (g : SudokuGrid) (r c : ℕ) : Cell :=
  let current2 := match forcingResult k g r c with
    | some f => get g r c ∩ f
    | none => get g r c
  if current2 = ∅ then current2 else elimLoop current2 (value_groups k g r c)

/-- `Sudoku.propagate_constraints`: a synchronous, simultaneous update of
every cell against the input grid. -/
def propagate_constraints (k : ℕ) (g : SudokuGrid) : SudokuGrid :=
  (List.range (k * k)).map (fun r =>
    (List.range (k * k)).map (fun c => calculate_options k g r c))

/-- `Sudoku.is_valid`: no cell holds an empty candidate set. -/
def is_valid (g : SudokuGrid) : Prop := ∀ row ∈ g, ∀ cell ∈ row, cell ≠ ∅

instance (g : SudokuGrid) : Decidable (is_valid g) :=
  List.decidableBAll _ g

/-- `enumerate` with a starting index. -/
def enumFromIdx {α : Type} : ℕ → List α → List (ℕ × α)
  | _, [] => []
  | i, x :: xs => (i, x) :: enumFromIdx (i + 1) xs

/-- The cells of a grid in row-major order, with their coordinates:
the iteration space of the nested `enumerate` loops of
`Sudoku.find_minimum_set`. -/
def cellsOf (g : SudokuGrid) : List (ℕ × ℕ × Cell) :=
  (enumFromIdx 0 g).flatMap (fun p => (enumFromIdx 0 p.2).map (fun q => (p.1, q.1, q.2)))

/-- Size of a scanned cell's candidate set. -/
def cellCard (x : ℕ × ℕ × Cell) : ℕ := x.2.2.card

/-- One step of the `find_minimum_set` scan: update the best seen so far
when `2 ≤ L < sofar`. -/
def fmsStep (st : ℕ × Option (ℕ × ℕ)) (x : ℕ × ℕ × Cell) : ℕ × Option (ℕ × ℕ) :=
  if 2 ≤ cellCard x ∧ cellCard x < st.1 then (cellCard x, some (x.1, x.2.1)) else st

/-- `Sudoku.find_minimum_set`: `sofar` starts at `N = cell_count`,
`(i, j)` starts unset. -/
def find_minimum_set (N : ℕ) (g : SudokuGrid) : Option (ℕ × ℕ) :=
  ((cellsOf g).foldl fmsStep (N, none)).2

/-- Total number of candidates in the grid: the potential function of the
simplification loop. -/
def totalCount (g : SudokuGrid) : ℕ :=
  (g.map (fun row => (row.map Finset.card).sum)).sum

/-- `Sudoku.simplify` as a fuel-indexed loop.  `none` means the fuel ran
out (never happens with fuel `totalCount g + 1`, see `simplifyAux_isSome`);
`some none` means the loop exited on an invalid grid (contradiction);
`some (some h)` means the loop yielded the fixpoint `h`. -/
def simplifyAux (k : ℕ) : ℕ → SudokuGrid → Option (Option SudokuGrid)
  | 0, _ => none
  | fuel + 1, g =>
    if is_valid g then
      let g2 := propagate_constraints k g
      if g2 = g then some (some g) else simplifyAux k fuel g2
    else some none

/-- `Sudoku.simplify`, run with sufficient fuel: `none` is contradiction
(zero results), `some h` is the unique fixpoint result. -/
def simplifyRun (k : ℕ) (g : SudokuGrid) : Option SudokuGrid :=
  match simplifyAux k (totalCount g + 1) g with
  | some r => r
  | none => none

/-- `list(sg.get(row, col))`: candidate values in ascending order
(the ascending enumeration of the set, written so that it reduces
structurally). -/
def sortCands (s : Cell) : List ℕ :=
  (List.range (s.sup id + 1)).filter (fun x => x ∈ s)

/-- `Sudoku.solve`: simplify, branch on the most constrained cell, recurse;
yield the grid when no branching cell exists and the grid is valid.  The
fuel bounds the recursion depth (each branch strictly shrinks the grid's
total candidate count, so `totalCount g + 1` is always enough). -/
def solveFuel (k : ℕ) : ℕ → SudokuGrid → List SudokuGrid
  | 0, _ => []
  | fuel + 1, g =>
    match simplifyRun k g with
    | none => []
    | some sg =>
      match find_minimum_set (k * k) sg with
      | some (r, c) =>
        (sortCands (get sg r c)).flatMap
          (fun choice => solveFuel k fuel (set_choice sg r c choice))
      | none => if is_valid sg then [sg] else []

/-- Sequence a list of optional values, failing if any is `none`
(the effect of an exception inside a Python list comprehension). -/
def seqOptions {α : Type} : List (Option α) → Option (List α)
  | [] => some []
  | x :: xs =>
    match x with
    | none => none
    | some v =>
      match seqOptions xs with
      | none => none
      | some vs => some (v :: vs)

/-- One line of `Puzzle.__init__`: `_` becomes `{1..len(line)}`, a digit
`c` becomes `{int(c)}`, any other character raises (`none`). -/
def parse_line (line : List Char) : Option (List Cell) :=
  seqOptions (line.map (fun ch =>
    if ch = '_' then some (Finset.Icc 1 line.length)
    else if ch.isDigit then some {ch.toNat - 48} else none))

/-- `str.splitlines()` for newline-separated text, as a structural
function on the character list. -/
def splitLinesAux : List Char → List Char → List (List Char)
  | [], acc => [acc.reverse]
  | ch :: rest, acc =>
    if ch = '\n' then acc.reverse :: splitLinesAux rest []
    else splitLinesAux rest (ch :: acc)

/-- The nonempty lines of the puzzle text (`splitlines` plus the
`if line` guard of the comprehension). -/
def puzzleLines (s : String) : List (List Char) :=
  (splitLinesAux s.toList []).filter (fun l => l ≠ [])

/-- `Puzzle.__init__`: split into nonempty lines and parse each. -/
def parse_puzzle (s : String) : Option SudokuGrid :=
  seqOptions ((puzzleLines s).map parse_line)

/-- `as_1_char`. -/
def as_1_char (x : ℕ) : Char :=
  "0123456789ABCDEFGHIJKLMNOPQRSTUVWXYZ".toList.getD x '!'

/-- `"\n".join`, as a structural function on character lists. -/
def joinLines : List (List Char) → List Char
  | [] => []
  | [l] => l
  | l :: rest => l ++ '\n' :: joinLines rest

/-- `Sudoku.as_puzzle_string`: singleton cells print as their value,
anything else as `_`. -/
def as_puzzle_string (g : SudokuGrid) : String :=
  String.mk (joinLines (g.map (fun row =>
    row.map (fun cell =>
      match sortCands cell with
      | [v] => as_1_char v
      | _ => '_'))))

/-- `math.isqrt`, as a structural function: the largest `m ≤ fuel` with
`m * m ≤ n`. -/
def isqrtAux : ℕ → ℕ → ℕ
  | 0, _ => 0
  | m + 1, n => if (m + 1) * (m + 1) ≤ n then m + 1 else isqrtAux m n

/-- `math.isqrt n`: the integer square root. -/
def isqrt (n : ℕ) : ℕ := isqrtAux n n

/-- Top-level `solve(puzzle)`: parse, simplify, search, format the first
solution; `"No solution"` otherwise.  `none` models the `ValueError`
Python's `int()` raises on a character that is neither `_` nor a digit. -/
def solve (s : String) : Option String :=
  (parse_puzzle s).map (fun g =>
    let k := isqrt g.length
    match simplifyRun k g with
    | none => "No solution"
    | some sg =>
      match solveFuel k (totalCount sg + 1) sg with
      | [] => "No solution"
      | h :: _ => as_puzzle_string h)

/-- An `N×N` grid (with `N = k*k`), as produced by parsing a well-formed
puzzle: the shape every `Sudoku` method assumes. -/
def wellformed (k : ℕ) (g : SudokuGrid) : Prop :=
  g.length = k * k ∧ ∀ row ∈ g, row.length = k * k

instance (k : ℕ) (g : SudokuGrid) : Decidable (wellformed k g) := by
  unfold wellformed; infer_instance

/-- Row-major (lexicographic) order on coordinates. -/
def lexLT (a b : ℕ × ℕ) : Prop := a.1 < b.1 ∨ (a.1 = b.1 ∧ a.2 < b.2)

instance (a b : ℕ × ℕ) : Decidable (lexLT a b) := by
  unfold lexLT; infer_instance

/-- The cells of the k×k box with box index `b`, in row-major order. -/
def boxCellCoords (k b : ℕ) : List (ℕ × ℕ) :=
  (List.range k).flatMap (fun i =>
    (List.range k).map (fun j => (b / k * k + i, b % k * k + j)))

/-- A complete valid solution: every row, column and box holds each value
of `{1..N}` in exactly one (singleton) cell. -/
def completeSolution (k : ℕ) (g : SudokuGrid) : Prop :=
  ∀ v ∈ Finset.Icc 1 (k * k),
    (∀ r < k * k,
      ((List.range (k * k)).filter (fun c => get g r c = {v})).length = 1) ∧
    (∀ c < k * k,
      ((List.range (k * k)).filter (fun r => get g r c = {v})).length = 1) ∧
    (∀ b < k * k,
      ((boxCellCoords k b).filter (fun p => get g p.1 p.2 = {v})).length = 1)

instance (k : ℕ) (g : SudokuGrid) : Decidable (completeSolution k g) := by
  unfold completeSolution; infer_instance

/-! ## Basic facts about the deduction rule -/

lemma foldl_union_mem (l : List Cell) (init : Cell) (x : ℕ) :
    x ∈ l.foldl (· ∪ ·) init ↔ x ∈ init ∨ ∃ t ∈ l, x ∈ t := by
  induction l generalizing init with
  | nil => simp
  | cons h t ih =>
    simp only [List.foldl_cons, ih, Finset.mem_union, List.mem_cons]
    constructor
    · rintro ((hx | hx) | ⟨u, hu, hx⟩)
      · exact Or.inl hx
      · exact Or.inr ⟨h, Or.inl rfl, hx⟩
      · exact Or.inr ⟨u, Or.inr hu, hx⟩
    · rintro (hx | ⟨u, (rfl | hu), hx⟩)
      · exact Or.inl (Or.inl hx)
      · exact Or.inl (Or.inr hx)
      · exact Or.inr ⟨u, hu, hx⟩

lemma mem_unionAll {l : List Cell} {x : ℕ} : x ∈ unionAll l ↔ ∃ t ∈ l, x ∈ t := by
  simp [unionAll, foldl_union_mem]

lemma foldl_singleton_mem (l : List Cell) (init : Cell) (x : ℕ) :
    x ∈ l.foldl (fun acc v => if v.card = 1 then acc ∪ v else acc) init ↔
      x ∈ init ∨ ∃ v ∈ l, v.card = 1 ∧ x ∈ v := by
  induction l generalizing init with
  | nil => simp
  | cons h t ih =>
    simp only [List.foldl_cons]
    by_cases hc : h.card = 1
    · rw [if_pos hc]
      simp only [ih, List.mem_cons, Finset.mem_union]
      constructor
      · rintro ((hx | hx) | ⟨u, hu, h1, hx⟩)
        · exact Or.inl hx
        · exact Or.inr ⟨h, Or.inl rfl, hc, hx⟩
        · exact Or.inr ⟨u, Or.inr hu, h1, hx⟩
      · rintro (hx | ⟨u, (rfl | hu), h1, hx⟩)
        · exact Or.inl (Or.inl hx)
        · exact Or.inl (Or.inr hx)
        · exact Or.inr ⟨u, hu, h1, hx⟩
    · rw [if_neg hc]
      simp only [ih, List.mem_cons]
      constructor
      · rintro (hx | ⟨u, hu, h1, hx⟩)
        · exact Or.inl hx
        · exact Or.inr ⟨u, Or.inr hu, h1, hx⟩
      · rintro (hx | ⟨u, (rfl | hu), h1, hx⟩)
        · exact Or.inl hx
        · exact absurd h1 hc
        · exact Or.inr ⟨u, hu, h1, hx⟩

lemma mem_singletonVals {l : List Cell} {x : ℕ} :
    x ∈ singletonVals l ↔ ∃ v ∈ l, v.card = 1 ∧ x ∈ v := by
  simp [singletonVals, foldl_singleton_mem]

lemma elimLoop_subset : ∀ (groups : List (List Cell)) (current : Cell),
    elimLoop current groups ⊆ current := by
  intro groups
  induction groups with
  | nil => intro current; simp [elimLoop]
  | cons v rest ih =>
    intro current
    simp only [elimLoop]
    split
    · exact fun x hx => hx
    · exact (ih _).trans Finset.sdiff_subset

/-- Unfolding of `restrictF` when the forced set has exactly one value. -/
lemma restrictF_card_one {st : Option Cell} {fc : Cell} (h : fc.card = 1) :
    restrictF st fc = match st with
      | none => some fc
      | some f => if f ≠ fc then some ∅ else some f := by
  simp [restrictF, h]

lemma restrictF_card_gt {st : Option Cell} {fc : Cell} (h : 1 < fc.card) :
    restrictF st fc = some ∅ := by
  have h1 : fc.card ≠ 1 := by omega
  simp [restrictF, h1, h]

lemma restrictF_card_zero {st : Option Cell} {fc : Cell} (h : fc.card = 0) :
    restrictF st fc = st := by
  simp [restrictF, h]

lemma restrictF_empty_absorb (fc : Cell) : restrictF (some ∅) fc = some ∅ := by
  rcases Nat.lt_trichotomy fc.card 1 with h | h | h
  · rw [restrictF_card_zero (by omega)]
  · rw [restrictF_card_one h]
    have : (∅ : Cell) ≠ fc := by
      intro heq; rw [← heq] at h; simp at h
    simp [this]
  · rw [restrictF_card_gt h]

lemma restrictF_eq_none {st : Option Cell} {fc : Cell} :
    restrictF st fc = none ↔ st = none ∧ fc.card = 0 := by
  rcases Nat.lt_trichotomy fc.card 1 with h | h | h
  · have h0 : fc.card = 0 := by omega
    rw [restrictF_card_zero h0]
    simp [h0]
  · rw [restrictF_card_one h]
    cases st with
    | none =>
      constructor
      · intro hn; simp at hn
      · rintro ⟨-, h0⟩; omega
    | some f => by_cases hf : f ≠ fc <;> simp [hf]
  · rw [restrictF_card_gt h]
    constructor
    · intro hn; simp at hn
    · rintro ⟨rfl, h0⟩; omega

lemma elimLoop_empty (groups : List (List Cell)) : elimLoop ∅ groups = ∅ := by
  cases groups <;> simp [elimLoop]

/-- One step of the forcing fold keeps the accumulator `none` or of size at
most one. -/
lemma restrictF_inv {st : Option Cell} (fc : Cell)
    (h : st = none ∨ ∃ f, st = some f ∧ f.card ≤ 1) :
    restrictF st fc = none ∨ ∃ f, restrictF st fc = some f ∧ f.card ≤ 1 := by
  rcases Nat.lt_trichotomy fc.card 1 with hc | hc | hc
  · rw [restrictF_card_zero (by omega)]; exact h
  · rw [restrictF_card_one hc]
    rcases h with rfl | ⟨f, rfl, hf⟩
    · exact Or.inr ⟨fc, rfl, by omega⟩
    · by_cases hne : f ≠ fc
      · simp only [if_pos hne]
        exact Or.inr ⟨∅, rfl, by simp⟩
      · simp only [if_neg hne]
        exact Or.inr ⟨f, rfl, hf⟩
  · rw [restrictF_card_gt hc]
    exact Or.inr ⟨∅, rfl, by simp⟩

lemma foldl_restrict_inv (gs : List (List Cell)) (current : Cell) :
    ∀ st : Option Cell, (st = none ∨ ∃ f, st = some f ∧ f.card ≤ 1) →
      ((gs.foldl (fun st values => restrict_by_value_group current values st) st = none) ∨
       ∃ f, gs.foldl (fun st values => restrict_by_value_group current values st) st = some f
          ∧ f.card ≤ 1) := by
  induction gs with
  | nil => intro st h; exact h
  | cons v rest ih =>
    intro st h
    exact ih _ (restrictF_inv _ h)

/-- The accumulated forced value, when defined, holds at most one value. -/
lemma forcingResult_card {k : ℕ} {g : SudokuGrid} {r c : ℕ} {f : Cell}
    (h : forcingResult k g r c = some f) : f.card ≤ 1 := by
  rcases foldl_restrict_inv (value_groups k g r c) (get g r c) none (Or.inl rfl) with
    h' | ⟨f', h', hc⟩
  · rw [forcingResult] at h; rw [h] at h'; cases h'
  · rw [forcingResult] at h; rw [h] at h'
    cases h'; exact hc

lemma foldl_restrict_none (gs : List (List Cell)) (current : Cell) :
    ∀ st : Option Cell,
      gs.foldl (fun st values => restrict_by_value_group current values st) st = none →
      st = none ∧ ∀ vs ∈ gs, current \ unionAll vs = ∅ := by
  induction gs with
  | nil => intro st h; exact ⟨h, by simp⟩
  | cons v rest ih =>
    intro st h
    rcases ih _ h with ⟨hstep, hrest⟩
    simp only [restrict_by_value_group] at hstep
    rw [restrictF_eq_none] at hstep
    refine ⟨hstep.1, ?_⟩
    intro vs hvs
    rcases List.mem_cons.mp hvs with rfl | hvs
    · exact Finset.card_eq_zero.mp hstep.2
    · exact hrest vs hvs

/-- If no group forces, the cell's candidates all occur among each peer
group's candidates. -/
lemma forcingResult_none {k : ℕ} {g : SudokuGrid} {r c : ℕ}
    (h : forcingResult k g r c = none) :
    get g r c \ unionAll (row_values k g r c) = ∅ ∧
    get g r c \ unionAll (col_values k g r c) = ∅ ∧
    get g r c \ unionAll (box_values k g r c) = ∅ := by
  have := (foldl_restrict_none (value_groups k g r c) (get g r c) none h).2
  exact ⟨this _ (by simp [value_groups]), this _ (by simp [value_groups]),
         this _ (by simp [value_groups])⟩

lemma calculate_options_of_some {k : ℕ} {g : SudokuGrid} {r c : ℕ} {f : Cell}
    (h : forcingResult k g r c = some f) :
    calculate_options k g r c = elimLoop (get g r c ∩ f) (value_groups k g r c) := by
  by_cases he : get g r c ∩ f = ∅
  · simp [calculate_options, h, he, elimLoop_empty]
  · simp [calculate_options, h, he]

lemma calculate_options_of_none {k : ℕ} {g : SudokuGrid} {r c : ℕ}
    (h : forcingResult k g r c = none) :
    calculate_options k g r c = elimLoop (get g r c) (value_groups k g r c) := by
  by_cases he : get g r c = ∅
  · simp [calculate_options, h, he, elimLoop_empty]
  · simp [calculate_options, h, he]

/-- C8's first conjunct as a lemma: the deduction rule only narrows. -/
lemma calculate_options_subset (k : ℕ) (g : SudokuGrid) (r c : ℕ) :
    calculate_options k g r c ⊆ get g r c := by
  cases h : forcingResult k g r c with
  | none => rw [calculate_options_of_none h]; exact elimLoop_subset _ _
  | some f =>
    rw [calculate_options_of_some h]
    exact (elimLoop_subset _ _).trans Finset.inter_subset_left

lemma foldl_restrict_singleton (gs : List (List Cell)) (current : Cell) (v : ℕ)
    (hcur : current = {v}) :
    ∀ st : Option Cell, (st = none ∨ st = some current) →
      (gs.foldl (fun st values => restrict_by_value_group current values st) st = none ∨
       gs.foldl (fun st values => restrict_by_value_group current values st) st
         = some current) := by
  induction gs with
  | nil => intro st h; exact h
  | cons vs rest ih =>
    intro st h
    apply ih
    have hsub : current \ unionAll vs ⊆ current := Finset.sdiff_subset
    have hle : (current \ unionAll vs).card ≤ 1 := by
      calc (current \ unionAll vs).card ≤ current.card := Finset.card_le_card hsub
        _ = 1 := by rw [hcur]; simp
    simp only [restrict_by_value_group]
    rcases Nat.lt_trichotomy (current \ unionAll vs).card 1 with hc | hc | hc
    · rw [restrictF_card_zero (by omega)]; exact h
    · have hfc : current \ unionAll vs = current := by
        apply Finset.eq_of_subset_of_card_le hsub
        rw [hcur] at hc ⊢; simp [hc]
      rw [restrictF_card_one hc, hfc]
      rcases h with rfl | rfl
      · exact Or.inr rfl
      · simp
    · omega

/-- A determined cell stays determined or collapses to empty: the deduction
rule never rewrites a singleton `{v}` into any other non-empty set. -/
lemma calculate_options_singleton {k : ℕ} {g : SudokuGrid} {r c v : ℕ}
    (h : get g r c = {v}) :
    calculate_options k g r c = {v} ∨ calculate_options k g r c = ∅ := by
  have hfold := foldl_restrict_singleton (value_groups k g r c) (get g r c) v h none
    (Or.inl rfl)
  rw [← forcingResult] at hfold
  have hsub : calculate_options k g r c ⊆ {v} := by
    rw [← h]; exact calculate_options_subset k g r c
  rcases Finset.subset_singleton_iff.mp hsub with he | he
  · exact Or.inr he
  · exact Or.inl he

/-! ## Grid shape and access -/

lemma getD_lt {α : Type} (l : List α) (d : α) {i : ℕ} (h : i < l.length) :
    l.getD i d = l[i] := by
  rw [List.getD_eq_getElem?_getD, List.getElem?_eq_getElem h, Option.getD_some]

lemma getD_ge {α : Type} (l : List α) (d : α) {i : ℕ} (h : l.length ≤ i) :
    l.getD i d = d := by
  rw [List.getD_eq_getElem?_getD, List.getElem?_eq_none h]; rfl

lemma getD_set_ne {α : Type} (l : List α) (a d : α) {i j : ℕ} (h : i ≠ j) :
    (l.set i a).getD j d = l.getD j d := by
  rw [List.getD_eq_getElem?_getD, List.getD_eq_getElem?_getD, List.getElem?_set_ne h]

lemma getD_set_self {α : Type} (l : List α) (a d : α) {i : ℕ} (h : i < l.length) :
    (l.set i a).getD i d = a := by
  rw [List.getD_eq_getElem?_getD, List.getElem?_set_self h, Option.getD_some]

lemma wellformed_propagate (k : ℕ) (g : SudokuGrid) :
    wellformed k (propagate_constraints k g) := by
  constructor
  · simp [propagate_constraints]
  · intro row hrow
    simp only [propagate_constraints, List.mem_map] at hrow
    rcases hrow with ⟨r, hr, rfl⟩
    simp

lemma get_def (g : SudokuGrid) (r c : ℕ) : get g r c = (g.getD r []).getD c ∅ := rfl

lemma getD_map_range {α : Type} (f : ℕ → α) (d : α) {n i : ℕ} (h : i < n) :
    ((List.range n).map f).getD i d = f i := by
  rw [getD_lt _ _ (by simp [h]), List.getElem_map, List.getElem_range]

lemma get_propagate {k : ℕ} (g : SudokuGrid) {r c : ℕ} (hr : r < k * k) (hc : c < k * k) :
    get (propagate_constraints k g) r c = calculate_options k g r c := by
  rw [get_def]
  unfold propagate_constraints
  rw [getD_map_range _ _ hr, getD_map_range _ _ hc]

lemma wellformed_set_choice {k : ℕ} {g : SudokuGrid} (r c v : ℕ)
    (hw : wellformed k g) : wellformed k (set_choice g r c v) := by
  constructor
  · rw [set_choice, List.length_set]; exact hw.1
  · intro row hrow
    by_cases hlen : r < g.length
    · rcases List.mem_or_eq_of_mem_set hrow with hmem | rfl
      · exact hw.2 row hmem
      · rw [List.length_set, getD_lt _ _ hlen]
        exact hw.2 _ (List.getElem_mem hlen)
    · rw [set_choice, List.set_eq_of_length_le (by omega)] at hrow
      exact hw.2 row hrow

lemma get_set_choice_self {k : ℕ} {g : SudokuGrid} {r c : ℕ} (v : ℕ)
    (hw : wellformed k g) (hr : r < k * k) (hc : c < k * k) :
    get (set_choice g r c v) r c = {v} := by
  have h1 := hw.1
  have hr' : r < g.length := by omega
  rw [get_def]
  unfold set_choice
  rw [getD_set_self _ _ _ hr']
  have hrow : (g.getD r []).length = k * k := by
    rw [getD_lt _ _ hr']
    exact hw.2 _ (List.getElem_mem hr')
  rw [getD_set_self _ _ _ (by omega)]

lemma get_set_choice_ne {g : SudokuGrid} {r c : ℕ} (v : ℕ) {r' c' : ℕ}
    (hne : ¬(r' = r ∧ c' = c)) :
    get (set_choice g r c v) r' c' = get g r' c' := by
  simp only [get_def]
  unfold set_choice
  by_cases hrr : r = r'
  · subst hrr
    have hcc : c ≠ c' := fun h => hne ⟨rfl, h.symm⟩
    by_cases hlen : r < g.length
    · rw [getD_set_self _ _ _ hlen, getD_set_ne _ _ _ hcc]
    · rw [List.set_eq_of_length_le (by omega)]
  · rw [getD_set_ne _ _ _ hrr]

/-- On a well-formed grid, a grid is its own row-major tabulation. -/
lemma grid_canon {k : ℕ} {g : SudokuGrid} (hw : wellformed k g) :
    g = (List.range (k * k)).map (fun r =>
      (List.range (k * k)).map (fun c => get g r c)) := by
  apply List.ext_getElem
  · simp [hw.1]
  · intro r h1 h2
    rw [List.getElem_map, List.getElem_range]
    have hrow : g[r] ∈ g := List.getElem_mem h1
    apply List.ext_getElem
    · rw [hw.2 _ hrow, List.length_map, List.length_range]
    · intro c hc1 hc2
      rw [List.getElem_map, List.getElem_range]
      rw [get_def]
      rw [getD_lt _ _ h1, getD_lt _ _ hc1]

/-! ## The potential function: candidate counts only shrink -/

lemma forall2_map_same {α β : Type} (l : List α) (f h : α → β) (R : β → β → Prop)
    (hfh : ∀ x ∈ l, R (f x) (h x)) : List.Forall₂ R (l.map f) (l.map h) := by
  induction l with
  | nil => exact List.Forall₂.nil
  | cons a t ih =>
    simp only [List.map_cons]
    exact List.Forall₂.cons (hfh a (by simp)) (ih (fun x hx => hfh x (by simp [hx])))

lemma row_card_le {row1 row2 : List Cell} (h : List.Forall₂ (· ⊆ ·) row1 row2) :
    (row1.map Finset.card).sum ≤ (row2.map Finset.card).sum := by
  induction h with
  | nil => simp
  | cons hab _ ih =>
    simp only [List.map_cons, List.sum_cons]
    have := Finset.card_le_card hab
    omega

lemma row_card_lt {row1 row2 : List Cell} (h : List.Forall₂ (· ⊆ ·) row1 row2)
    (hne : row1 ≠ row2) :
    (row1.map Finset.card).sum < (row2.map Finset.card).sum := by
  induction h with
  | nil => exact absurd rfl hne
  | @cons a b l1 l2 hab htail ih =>
    simp only [List.map_cons, List.sum_cons]
    by_cases heq : a = b
    · subst heq
      have hlt : (l1.map Finset.card).sum < (l2.map Finset.card).sum :=
        ih (fun hl => hne (by rw [hl]))
      omega
    · have hlt : a.card < b.card := Finset.card_lt_card (hab.ssubset_of_ne heq)
      have hle := row_card_le htail
      omega

lemma grid_count_le {g1 g2 : SudokuGrid}
    (h : List.Forall₂ (List.Forall₂ (· ⊆ ·)) g1 g2) : totalCount g1 ≤ totalCount g2 := by
  unfold totalCount
  induction h with
  | nil => simp
  | cons hab _ ih =>
    simp only [List.map_cons, List.sum_cons]
    have := row_card_le hab
    omega

lemma grid_count_lt {g1 g2 : SudokuGrid}
    (h : List.Forall₂ (List.Forall₂ (· ⊆ ·)) g1 g2) (hne : g1 ≠ g2) :
    totalCount g1 < totalCount g2 := by
  unfold totalCount
  induction h with
  | nil => exact absurd rfl hne
  | @cons a b l1 l2 hab htail ih =>
    simp only [List.map_cons, List.sum_cons]
    by_cases heq : a = b
    · subst heq
      have hlt := ih (fun hl => hne (by rw [hl]))
      unfold totalCount at hlt
      omega
    · have hlt := row_card_lt hab heq
      have hle := grid_count_le htail
      unfold totalCount at hle
      omega

/-- The next-generation grid is cellwise contained in the (canonically
tabulated) current one. -/
lemma propagate_forall2 {k : ℕ} (g : SudokuGrid) :
    List.Forall₂ (List.Forall₂ (· ⊆ ·)) (propagate_constraints k g)
      ((List.range (k * k)).map (fun r =>
        (List.range (k * k)).map (fun c => get g r c))) := by
  unfold propagate_constraints
  apply forall2_map_same
  intro r _
  apply forall2_map_same
  intro c _
  exact calculate_options_subset k g r c

lemma propagate_count_le {k : ℕ} {g : SudokuGrid} (hw : wellformed k g) :
    totalCount (propagate_constraints k g) ≤ totalCount g := by
  conv_rhs => rw [grid_canon hw]
  exact grid_count_le (propagate_forall2 g)

lemma propagate_count_lt {k : ℕ} {g : SudokuGrid} (hw : wellformed k g)
    (hne : propagate_constraints k g ≠ g) :
    totalCount (propagate_constraints k g) < totalCount g := by
  conv_rhs => rw [grid_canon hw]
  apply grid_count_lt (propagate_forall2 g)
  rw [← grid_canon hw]
  exact hne

/-! ## The simplification loop -/

/-- Iterated propagation: the conceptual propagation sequence. -/
def iterProp (k : ℕ) : ℕ → SudokuGrid → SudokuGrid
  | 0, g => g
  | j + 1, g => iterProp k j (propagate_constraints k g)

lemma wellformed_iterProp {k : ℕ} (j : ℕ) {g : SudokuGrid} (hw : wellformed k g) :
    wellformed k (iterProp k j g) := by
  induction j generalizing g with
  | zero => exact hw
  | succ m ih => exact ih (wellformed_propagate k g)

/-- Termination of `Sudoku.simplify`: with fuel exceeding the total
candidate count the loop always reaches one of its two exits. -/
lemma simplifyAux_isSome {k : ℕ} :
    ∀ (n : ℕ) (g : SudokuGrid), wellformed k g → totalCount g < n →
      (simplifyAux k n g).isSome := by
  intro n
  induction n with
  | zero => intro g _ h; omega
  | succ m ih =>
    intro g hw h
    simp only [simplifyAux]
    by_cases hv : is_valid g
    · rw [if_pos hv]
      by_cases hfix : propagate_constraints k g = g
      · rw [if_pos hfix]; rfl
      · rw [if_neg hfix]
        apply ih _ (wellformed_propagate k g)
        have := propagate_count_lt hw hfix
        omega
    · rw [if_neg hv]; rfl

lemma simplifyAux_some_some {k : ℕ} :
    ∀ (n : ℕ) (g h : SudokuGrid), simplifyAux k n g = some (some h) →
      propagate_constraints k h = h ∧ is_valid h ∧ ∃ j, h = iterProp k j g := by
  intro n
  induction n with
  | zero => intro g h heq; cases heq
  | succ m ih =>
    intro g h hsome
    simp only [simplifyAux] at hsome
    by_cases hv : is_valid g
    · rw [if_pos hv] at hsome
      by_cases hfix : propagate_constraints k g = g
      · rw [if_pos hfix] at hsome
        cases hsome
        exact ⟨hfix, hv, 0, rfl⟩
      · rw [if_neg hfix] at hsome
        rcases ih _ _ hsome with ⟨h1, h2, j, h3⟩
        exact ⟨h1, h2, j + 1, h3⟩
    · rw [if_neg hv] at hsome
      cases hsome

lemma simplifyAux_some_none {k : ℕ} :
    ∀ (n : ℕ) (g : SudokuGrid), simplifyAux k n g = some none →
      ∃ j, ¬ is_valid (iterProp k j g) := by
  intro n
  induction n with
  | zero => intro g heq; cases heq
  | succ m ih =>
    intro g hsome
    simp only [simplifyAux] at hsome
    by_cases hv : is_valid g
    · rw [if_pos hv] at hsome
      by_cases hfix : propagate_constraints k g = g
      · rw [if_pos hfix] at hsome; cases hsome
      · rw [if_neg hfix] at hsome
        rcases ih _ hsome with ⟨j, hj⟩
        exact ⟨j + 1, hj⟩
    · exact ⟨0, hv⟩

/-- Every cell of a valid well-formed grid is non-empty. -/
lemma is_valid_get {k : ℕ} {g : SudokuGrid} (hw : wellformed k g)
    (hv : is_valid g) {r c : ℕ} (hr : r < k * k) (hc : c < k * k) :
    get g r c ≠ ∅ := by
  have h1 := hw.1
  have hr' : r < g.length := by omega
  have hrow : g[r] ∈ g := List.getElem_mem hr'
  have hlen : g[r].length = k * k := hw.2 _ hrow
  have hc' : c < g[r].length := by omega
  rw [get_def, getD_lt _ _ hr', getD_lt _ _ hc']
  exact hv _ hrow _ (List.getElem_mem hc')

/-! ## The branch selector: specification of the scan -/

/-- Full characterisation of the `find_minimum_set` fold: the final `sofar`
is a lower bound of all scanned sizes `≥ 2` and never grows; the final best
cell, when one was recorded, is the first cell of the list attaining the
final `sofar`, with every earlier cell either undetermined-small or
strictly larger and every later cell no smaller. -/
lemma fms_fold_spec :
    ∀ (L : List (ℕ × ℕ × Cell)) (st : ℕ × Option (ℕ × ℕ)),
      (L.foldl fmsStep st).1 ≤ st.1 ∧
      (∀ x ∈ L, 2 ≤ cellCard x → (L.foldl fmsStep st).1 ≤ cellCard x) ∧
      ((L.foldl fmsStep st = st ∧ ∀ x ∈ L, ¬(2 ≤ cellCard x ∧ cellCard x < st.1)) ∨
       (∃ L₁ x L₂, L = L₁ ++ x :: L₂ ∧
          (L.foldl fmsStep st).2 = some (x.1, x.2.1) ∧
          (L.foldl fmsStep st).1 = cellCard x ∧
          2 ≤ cellCard x ∧ cellCard x < st.1 ∧
          (∀ y ∈ L₁, ¬(2 ≤ cellCard y ∧ cellCard y ≤ cellCard x)) ∧
          (∀ y ∈ L₂, ¬(2 ≤ cellCard y ∧ cellCard y < cellCard x)))) := by
  intro L
  induction L with
  | nil =>
    intro st
    exact ⟨le_refl _, by simp, Or.inl ⟨rfl, by simp⟩⟩
  | cons x rest ih =>
    intro st
    simp only [List.foldl_cons]
    by_cases hup : 2 ≤ cellCard x ∧ cellCard x < st.1
    · have hstep : fmsStep st x = (cellCard x, some (x.1, x.2.1)) := by
        simp [fmsStep, hup]
      rw [hstep]
      rcases ih (cellCard x, some (x.1, x.2.1)) with ⟨h1, h2, h3⟩
      refine ⟨?_, ?_, ?_⟩
      · exact le_of_lt (lt_of_le_of_lt h1 hup.2)
      · intro y hy hcy
        rcases List.mem_cons.mp hy with rfl | hy
        · exact h1
        · exact h2 y hy hcy
      · rcases h3 with ⟨heq, hnone⟩ | ⟨L₁, z, L₂, hsplit, hb, hc, h2c, hlt, hL₁, hL₂⟩
        · right
          refine ⟨[], x, rest, by simp, ?_, ?_, hup.1, hup.2, by simp, ?_⟩
          · rw [heq]
          · rw [heq]
          · intro y hy
            exact hnone y hy
        · right
          refine ⟨x :: L₁, z, L₂, by rw [hsplit]; rfl, hb, hc, h2c,
            lt_trans hlt hup.2, ?_, hL₂⟩
          intro y hy
          rcases List.mem_cons.mp hy with rfl | hy
          · rintro ⟨-, hle⟩
            omega
          · exact hL₁ y hy
    · have hstep : fmsStep st x = st := by
        simp only [fmsStep, if_neg hup]
      rw [hstep]
      rcases ih st with ⟨h1, h2, h3⟩
      refine ⟨h1, ?_, ?_⟩
      · intro y hy hcy
        rcases List.mem_cons.mp hy with rfl | hy
        · have : ¬ cellCard y < st.1 := fun hlt => hup ⟨hcy, hlt⟩
          omega
        · exact h2 y hy hcy
      · rcases h3 with ⟨heq, hnone⟩ | ⟨L₁, z, L₂, hsplit, hb, hc, h2c, hlt, hL₁, hL₂⟩
        · left
          refine ⟨heq, ?_⟩
          intro y hy
          rcases List.mem_cons.mp hy with rfl | hy
          · exact hup
          · exact hnone y hy
        · right
          refine ⟨x :: L₁, z, L₂, by rw [hsplit]; rfl, hb, hc, h2c, hlt, ?_, hL₂⟩
          intro y hy
          rcases List.mem_cons.mp hy with rfl | hy
          · rintro ⟨hy2, hyle⟩
            exact hup ⟨hy2, lt_of_le_of_lt hyle hlt⟩
          · exact hL₁ y hy

lemma mem_enumFromIdx {α : Type} (l : List α) :
    ∀ (j i : ℕ) (x : α), (i, x) ∈ enumFromIdx j l ↔ ∃ d, i = j + d ∧ l[d]? = some x := by
  induction l with
  | nil => intro j i x; simp [enumFromIdx]
  | cons a t ih =>
    intro j i x
    simp only [enumFromIdx, List.mem_cons, ih, Prod.mk.injEq]
    constructor
    · rintro (⟨rfl, rfl⟩ | ⟨d, rfl, h2⟩)
      · exact ⟨0, by omega, by simp⟩
      · exact ⟨d + 1, by omega, by simpa using h2⟩
    · rintro ⟨d, rfl, h2⟩
      cases d with
      | zero =>
        left
        rw [List.getElem?_cons_zero] at h2
        cases h2
        exact ⟨by omega, rfl⟩
      | succ e =>
        right
        exact ⟨e, by omega, by simpa using h2⟩

lemma pairwise_enumFromIdx {α : Type} (l : List α) :
    ∀ j, (enumFromIdx j l).Pairwise (fun p q => p.1 < q.1) := by
  induction l with
  | nil => intro j; simp [enumFromIdx]
  | cons a t ih =>
    intro j
    simp only [enumFromIdx, List.pairwise_cons]
    refine ⟨?_, ih (j + 1)⟩
    rintro ⟨q1, q2⟩ hq
    rw [mem_enumFromIdx] at hq
    rcases hq with ⟨d, rfl, -⟩
    simp; omega

lemma pairwise_flatMap {α β : Type} (R : β → β → Prop) (S : α → α → Prop) (l : List α)
    (f : α → List β) (hl : l.Pairwise S)
    (hin : ∀ a ∈ l, (f a).Pairwise R)
    (hcross : ∀ a b, S a b → ∀ x ∈ f a, ∀ y ∈ f b, R x y) :
    (l.flatMap f).Pairwise R := by
  induction l with
  | nil => simp
  | cons a t ih =>
    rw [List.flatMap_cons, List.pairwise_append]
    rcases List.pairwise_cons.mp hl with ⟨hS, htail⟩
    refine ⟨hin a (by simp), ih htail (fun b hb => hin b (by simp [hb])), ?_⟩
    intro x hx y hy
    rw [List.mem_flatMap] at hy
    rcases hy with ⟨b, hb, hyb⟩
    exact hcross a b (hS b hb) x hx y hyb

/-- The row-major scan visits cells in strictly increasing lexicographic
coordinate order. -/
lemma cellsOf_pairwise (g : SudokuGrid) :
    (cellsOf g).Pairwise (fun p q => lexLT (p.1, p.2.1) (q.1, q.2.1)) := by
  unfold cellsOf
  apply pairwise_flatMap _ (fun p q => p.1 < q.1)
  · exact pairwise_enumFromIdx g 0
  · intro p _
    rw [List.pairwise_map]
    exact (pairwise_enumFromIdx p.2 0).imp (fun h => Or.inr ⟨rfl, h⟩)
  · intro a b hS x hx y hy
    rcases List.mem_map.mp hx with ⟨q, _, rfl⟩
    rcases List.mem_map.mp hy with ⟨q', _, rfl⟩
    exact Or.inl hS

lemma lexLT_irrefl (a : ℕ × ℕ) : ¬ lexLT a a := by
  unfold lexLT; omega

lemma lexLT_asymm {a b : ℕ × ℕ} (h : lexLT a b) : ¬ lexLT b a := by
  unfold lexLT at h ⊢; omega

/-- Characterisation of membership in the scan list of a well-formed grid. -/
lemma mem_cellsOf {k : ℕ} {g : SudokuGrid} (hw : wellformed k g) (r c : ℕ) (S : Cell) :
    (r, c, S) ∈ cellsOf g ↔ r < k * k ∧ c < k * k ∧ S = get g r c := by
  unfold cellsOf
  simp only [List.mem_flatMap, List.mem_map]
  constructor
  · rintro ⟨⟨pr, prow⟩, hp, ⟨qc, qcell⟩, hq, heq⟩
    simp only [Prod.mk.injEq] at heq
    obtain ⟨rfl, rfl, rfl⟩ := heq
    rw [mem_enumFromIdx] at hp hq
    rcases hp with ⟨d, hpd, hrow⟩
    rcases hq with ⟨e, hqe, hcell⟩
    dsimp only at hcell hrow hpd hqe
    have hpr : pr = d := by omega
    have hqc : qc = e := by omega
    rw [hpr, hqc]
    rcases List.getElem?_eq_some.mp hrow with ⟨hd, hrow'⟩
    rcases List.getElem?_eq_some.mp hcell with ⟨he, hcell'⟩
    have hlenr : g.length = k * k := hw.1
    have hlenc : prow.length = k * k := by
      rw [← hrow']; exact hw.2 _ (List.getElem_mem hd)
    have he' : e < prow.length := he
    refine ⟨by omega, by omega, ?_⟩
    rw [get_def, getD_lt _ _ hd, hrow', getD_lt _ _ he', hcell']
  · rintro ⟨hr, hc, rfl⟩
    have hr' : r < g.length := by have := hw.1; omega
    have hlenc : g[r].length = k * k := hw.2 _ (List.getElem_mem hr')
    have hc' : c < g[r].length := by omega
    refine ⟨(r, g[r]), ?_, (c, g[r][c]), ?_, ?_⟩
    · rw [mem_enumFromIdx]
      exact ⟨r, by omega, by rw [List.getElem?_eq_getElem hr']⟩
    · rw [mem_enumFromIdx]
      exact ⟨c, by omega, by rw [List.getElem?_eq_getElem hc']⟩
    · simp only [Prod.mk.injEq]
      refine ⟨trivial, trivial, ?_⟩
      rw [get_def, getD_lt _ _ hr', getD_lt _ _ hc']

/-- `find_minimum_set` returns `None` exactly when no cell's size lies in
`[2, N)`: cells of size exactly `N` are invisible to the scan because
`sofar` starts at `N` and the comparison is strict. -/
lemma find_minimum_set_none_iff {k : ℕ} {g : SudokuGrid} (hw : wellformed k g) :
    find_minimum_set (k * k) g = none ↔
      ∀ r' < k * k, ∀ c' < k * k,
        ¬(2 ≤ (get g r' c').card ∧ (get g r' c').card < k * k) := by
  rcases fms_fold_spec (cellsOf g) (k * k, none) with ⟨h1, h2, h3⟩
  unfold find_minimum_set
  constructor
  · intro hnone r' hr' c' hc'
    rcases h3 with ⟨heq, hx⟩ | ⟨L₁, x, L₂, hsplit, hb, hc, h2c, hlt, hL₁, hL₂⟩
    · have hmem : (r', c', get g r' c') ∈ cellsOf g :=
        (mem_cellsOf hw r' c' _).mpr ⟨hr', hc', rfl⟩
      exact hx _ hmem
    · rw [hb] at hnone; cases hnone
  · intro hall
    rcases h3 with ⟨heq, -⟩ | ⟨L₁, x, L₂, hsplit, hb, hc, h2c, hlt, hL₁, hL₂⟩
    · rw [heq]
    · exfalso
      have hmem : x ∈ cellsOf g := by rw [hsplit]; simp
      obtain ⟨x1, x2, x3⟩ := x
      rcases (mem_cellsOf hw x1 x2 x3).mp hmem with ⟨hx1, hx2, hx3⟩
      apply hall x1 hx1 x2 hx2
      rw [← hx3]
      exact ⟨h2c, hlt⟩

/-- Full specification of a successful `find_minimum_set` scan on a
well-formed grid: the returned cell is in range, has size in `[2, N)`,
its size is minimal among all sizes `≥ 2`, and no earlier cell in
row-major order ties or beats it. -/
lemma find_minimum_set_some {k : ℕ} {g : SudokuGrid} {r c : ℕ} (hw : wellformed k g)
    (h : find_minimum_set (k * k) g = some (r, c)) :
    r < k * k ∧ c < k * k ∧ 2 ≤ (get g r c).card ∧ (get g r c).card < k * k ∧
    (∀ r' < k * k, ∀ c' < k * k, 2 ≤ (get g r' c').card →
      (get g r c).card ≤ (get g r' c').card) ∧
    (∀ r' < k * k, ∀ c' < k * k, lexLT (r', c') (r, c) →
      ¬(2 ≤ (get g r' c').card ∧ (get g r' c').card ≤ (get g r c).card)) := by
  rcases fms_fold_spec (cellsOf g) (k * k, none) with ⟨h1, h2, h3⟩
  unfold find_minimum_set at h
  rcases h3 with ⟨heq, -⟩ | ⟨L₁, x, L₂, hsplit, hb, hcard, h2c, hlt, hL₁, hL₂⟩
  · rw [heq] at h; cases h
  · obtain ⟨x1, x2, x3⟩ := x
    rw [hb] at h
    simp only [Option.some.injEq, Prod.mk.injEq] at h
    obtain ⟨rfl, rfl⟩ := h
    have hmem : (x1, x2, x3) ∈ cellsOf g := by rw [hsplit]; simp
    rcases (mem_cellsOf hw x1 x2 x3).mp hmem with ⟨hr, hc, rfl⟩
    refine ⟨hr, hc, h2c, hlt, ?_, ?_⟩
    · intro r' hr' c' hc' h2'
      have hmem' : (r', c', get g r' c') ∈ cellsOf g :=
        (mem_cellsOf hw _ _ _).mpr ⟨hr', hc', rfl⟩
      have := h2 _ hmem' h2'
      rw [hcard] at this
      exact this
    · intro r' hr' c' hc' hlex
      have hmem' : (r', c', get g r' c') ∈ cellsOf g :=
        (mem_cellsOf hw _ _ _).mpr ⟨hr', hc', rfl⟩
      rw [hsplit] at hmem'
      rcases List.mem_append.mp hmem' with hin1 | hin2
      · exact hL₁ _ hin1
      · rcases List.mem_cons.mp hin2 with heq2 | hin2
        · exfalso
          have hco : (r', c') = (x1, x2) := by
            have := congrArg (fun t => (t.1, t.2.1)) heq2
            simpa using this
          rw [hco] at hlex
          exact lexLT_irrefl _ hlex
        · exfalso
          have hpw := cellsOf_pairwise g
          rw [hsplit] at hpw
          rcases List.pairwise_append.mp hpw with ⟨-, hp2, -⟩
          rcases List.pairwise_cons.mp hp2 with ⟨hxafter, -⟩
          exact lexLT_asymm (hxafter _ hin2) hlex

/-! ## Fixpoint cells and the aliasing invariant -/

/-- At a cell the propagator leaves unchanged, a multi-candidate cell gets
no forcing signal. -/
lemma fixpoint_multi_forcing_none {k : ℕ} {g : SudokuGrid} {r c : ℕ}
    (hfix : calculate_options k g r c = get g r c) (h2 : 2 ≤ (get g r c).card) :
    forcingResult k g r c = none := by
  cases h : forcingResult k g r c with
  | none => rfl
  | some f =>
    exfalso
    have hcard := forcingResult_card h
    have hsub : calculate_options k g r c ⊆ f := by
      rw [calculate_options_of_some h]
      exact (elimLoop_subset _ _).trans Finset.inter_subset_right
    have : (get g r c).card ≤ f.card := by
      rw [← hfix]; exact Finset.card_le_card hsub
    omega

lemma mem_row_values_of {k : ℕ} (g : SudokuGrid) {r c c' : ℕ}
    (hc' : c' < k * k) (hne : c' ≠ c) : get g r c' ∈ row_values k g r c := by
  unfold row_values other_row_coords
  simp only [List.mem_map, List.mem_filter, List.mem_range]
  exact ⟨(r, c'), ⟨c', by simp [hc', hne], rfl⟩, rfl⟩

lemma row_values_mem_inv {k : ℕ} {g : SudokuGrid} {r c : ℕ} {T : Cell}
    (h : T ∈ row_values k g r c) : ∃ c', c' < k * k ∧ c' ≠ c ∧ T = get g r c' := by
  unfold row_values other_row_coords at h
  simp only [List.mem_map, List.mem_filter, List.mem_range] at h
  rcases h with ⟨p, ⟨c', hc', rfl⟩, rfl⟩
  simp only [List.mem_range, decide_eq_true_eq] at hc'
  exact ⟨c', hc'.1, hc'.2, rfl⟩

/-- A cell whose row holds a determined peer with one of its own candidate
values cannot be left unchanged by the deduction rule. -/
lemma calc_ne_of_singleton_row_peer {k : ℕ} {g : SudokuGrid} {r c w : ℕ}
    (hwv : w ∈ get g r c)
    (hsing : ∃ T ∈ row_values k g r c, T.card = 1 ∧ w ∈ T)
    (h2 : 2 ≤ (get g r c).card) :
    calculate_options k g r c ≠ get g r c := by
  intro hfix
  have hforce := fixpoint_multi_forcing_none hfix h2
  have hcalc := calculate_options_of_none hforce
  have hVne : get g r c ≠ ∅ := by
    intro h0; rw [h0] at h2; simp at h2
  rcases hsing with ⟨T, hT, hcard, hwT⟩
  have hwin : w ∈ singletonVals (row_values k g r c) :=
    mem_singletonVals.mpr ⟨T, hT, hcard, hwT⟩
  have hstep : elimLoop (get g r c) (value_groups k g r c) =
      elimLoop (get g r c \ singletonVals (row_values k g r c))
        [col_values k g r c, box_values k g r c] := by
    rw [value_groups, elimLoop, if_neg hVne]
  have hsubset : calculate_options k g r c ⊆
      get g r c \ singletonVals (row_values k g r c) := by
    rw [hcalc, hstep]
    exact elimLoop_subset _ _
  have hnotmem : w ∉ calculate_options k g r c := fun hmem =>
    (Finset.mem_sdiff.mp (hsubset hmem)).2 hwin
  rw [hfix] at hnotmem
  exact hnotmem hwv

/-- The heart of the aliasing invariant (C9): collapsing the selected
branching cell of a valid well-formed fixpoint grid always destroys the
fixpoint, so the recursive `solve` call always propagates to fresh grids
and never mutates the branching grid it was handed. -/
lemma collapse_not_fixpoint {k : ℕ} {g : SudokuGrid} {r c v : ℕ}
    (hw : wellformed k g)
    (hfix : propagate_constraints k g = g)
    (hmin : find_minimum_set (k * k) g = some (r, c))
    (hv : v ∈ get g r c) :
    propagate_constraints k (set_choice g r c v) ≠ set_choice g r c v := by
  obtain ⟨hr, hc, h2, hltN, -, -⟩ := find_minimum_set_some hw hmin
  have hfix_cell : calculate_options k g r c = get g r c := by
    rw [← get_propagate g hr hc, hfix]
  have hforce := fixpoint_multi_forcing_none hfix_cell h2
  have hrowempty := (forcingResult_none hforce).1
  have hvu : v ∈ unionAll (row_values k g r c) := by
    by_contra hnot
    have hmem : v ∈ get g r c \ unionAll (row_values k g r c) :=
      Finset.mem_sdiff.mpr ⟨hv, hnot⟩
    rw [hrowempty] at hmem
    simp at hmem
  rcases mem_unionAll.mp hvu with ⟨T, hT, hvT⟩
  rcases row_values_mem_inv hT with ⟨c2, hc2, hc2ne, rfl⟩
  have hT2 : 2 ≤ (get g r c2).card := by
    rcases Nat.lt_or_ge ((get g r c2).card) 2 with hlt | hge
    · exfalso
      have hcard1 : (get g r c2).card = 1 := by
        have : 0 < (get g r c2).card := Finset.card_pos.mpr ⟨v, hvT⟩
        omega
      exact calc_ne_of_singleton_row_peer hv ⟨get g r c2, hT, hcard1, hvT⟩ h2 hfix_cell
    · exact hge
  have hw' : wellformed k (set_choice g r c v) := wellformed_set_choice r c v hw
  have hgT : get (set_choice g r c v) r c2 = get g r c2 :=
    get_set_choice_ne v (fun hh => hc2ne hh.2)
  intro hfix'
  have hfix_cell' :
      calculate_options k (set_choice g r c v) r c2 = get (set_choice g r c v) r c2 := by
    rw [← get_propagate (set_choice g r c v) hr hc2, hfix']
  cases hf' : forcingResult k (set_choice g r c v) r c2 with
  | some f =>
    have hcard := forcingResult_card hf'
    have hsubf : calculate_options k (set_choice g r c v) r c2 ⊆ f := by
      rw [calculate_options_of_some hf']
      exact (elimLoop_subset _ _).trans Finset.inter_subset_right
    have hle : (get (set_choice g r c v) r c2).card ≤ f.card := by
      rw [← hfix_cell']; exact Finset.card_le_card hsubf
    rw [hgT] at hle
    omega
  | none =>
    apply calc_ne_of_singleton_row_peer (w := v) ?_ ?_ ?_ hfix_cell'
    · rw [hgT]; exact hvT
    · refine ⟨get (set_choice g r c v) r c, ?_, ?_, ?_⟩
      · exact mem_row_values_of _ hc (fun h => hc2ne h.symm)
      · rw [get_set_choice_self v hw hr hc]; simp
      · rw [get_set_choice_self v hw hr hc]; simp
    · rw [hgT]; exact hT2

/-! ## Fidelity of determined cells through the search -/

lemma simplifyRun_some {k : ℕ} {g sg : SudokuGrid} (h : simplifyRun k g = some sg) :
    simplifyAux k (totalCount g + 1) g = some (some sg) := by
  unfold simplifyRun at h
  cases haux : simplifyAux k (totalCount g + 1) g with
  | none => rw [haux] at h; cases h
  | some o =>
    rw [haux] at h
    cases o with
    | none => cases h
    | some t => cases h; rfl

lemma simplifyRun_none_of_aux {k : ℕ} {g : SudokuGrid}
    (h : simplifyAux k (totalCount g + 1) g = some none) : simplifyRun k g = none := by
  unfold simplifyRun
  rw [h]

/-- Along the simplification loop a determined cell keeps its value in any
yielded fixpoint. -/
lemma simplifyAux_singleton {k r c v : ℕ} (hr : r < k * k) (hc : c < k * k) :
    ∀ (n : ℕ) (g h : SudokuGrid), wellformed k g →
      (get g r c = {v} ∨ ¬ is_valid g) →
      simplifyAux k n g = some (some h) → get h r c = {v} := by
  intro n
  induction n with
  | zero => intro g h _ _ heq; cases heq
  | succ m ih =>
    intro g h hw hcell hsome
    simp only [simplifyAux] at hsome
    by_cases hval : is_valid g
    · rw [if_pos hval] at hsome
      rcases hcell with hcell | hcell
      · by_cases hfix : propagate_constraints k g = g
        · rw [if_pos hfix] at hsome; cases hsome; exact hcell
        · rw [if_neg hfix] at hsome
          refine ih _ _ (wellformed_propagate k g) ?_ hsome
          rcases calculate_options_singleton (k := k) hcell with h1 | h1
          · left; rw [get_propagate g hr hc]; exact h1
          · right
            intro hval2
            have hne := is_valid_get (wellformed_propagate k g) hval2 hr hc
            rw [get_propagate g hr hc] at hne
            exact hne h1
      · exact absurd hval hcell
    · rw [if_neg hval] at hsome; cases hsome

/-- Determined cells of the input grid keep their value in every grid the
search yields. -/
lemma solveFuel_singleton {k r c v : ℕ} (hr : r < k * k) (hc : c < k * k) :
    ∀ (n : ℕ) (g : SudokuGrid), wellformed k g → get g r c = {v} →
      ∀ h ∈ solveFuel k n g, get h r c = {v} := by
  intro n
  induction n with
  | zero => intro g _ _ h hmem; simp [solveFuel] at hmem
  | succ m ih =>
    intro g hw hcell h hmem
    simp only [solveFuel] at hmem
    cases hrun : simplifyRun k g with
    | none => rw [hrun] at hmem; simp at hmem
    | some sg =>
      rw [hrun] at hmem
      dsimp only at hmem
      obtain ⟨hfixsg, hvalsg, j, hj⟩ := simplifyAux_some_some _ _ _ (simplifyRun_some hrun)
      have hwsg : wellformed k sg := hj ▸ wellformed_iterProp j hw
      have hcellsg : get sg r c = {v} :=
        simplifyAux_singleton hr hc _ _ _ hw (Or.inl hcell) (simplifyRun_some hrun)
      cases hmin : find_minimum_set (k * k) sg with
      | none =>
        rw [hmin] at hmem
        by_cases hvs : is_valid sg
        · rw [if_pos hvs] at hmem
          rw [List.mem_singleton] at hmem
          subst hmem
          exact hcellsg
        · rw [if_neg hvs] at hmem; simp at hmem
      | some rc =>
        obtain ⟨r2, c2⟩ := rc
        rw [hmin] at hmem
        simp only [List.mem_flatMap] at hmem
        rcases hmem with ⟨choice, -, hmem⟩
        have hne : ¬(r2 = r ∧ c2 = c) := by
          rintro ⟨rfl, rfl⟩
          obtain ⟨-, -, h2, -⟩ := find_minimum_set_some hwsg hmin
          rw [hcellsg] at h2
          simp at h2
        refine ih _ (wellformed_set_choice r2 c2 choice hwsg) ?_ h hmem
        rw [get_set_choice_ne choice (fun hh => hne ⟨hh.1.symm, hh.2.symm⟩)]
        exact hcellsg

/-! ## Hidden-single forcing, group by group -/

/-- `Focus.forced_row_value`: candidates of the cell that appear nowhere
else in its row. -/
def forced_row_value (k : ℕ) (g : SudokuGrid) (r c : ℕ) : Cell :=
  get g r c \ unionAll (row_values k g r c)

/-- `Focus.forced_col_value`. -/
def forced_col_value (k : ℕ) (g : SudokuGrid) (r c : ℕ) : Cell :=
  get g r c \ unionAll (col_values k g r c)

/-- `Focus.forced_box_value`. -/
def forced_box_value (k : ℕ) (g : SudokuGrid) (r c : ℕ) : Cell :=
  get g r c \ unionAll (box_values k g r c)

lemma forcingResult_eq (k : ℕ) (g : SudokuGrid) (r c : ℕ) :
    forcingResult k g r c =
      restrictF (restrictF (restrictF none (forced_row_value k g r c))
        (forced_col_value k g r c)) (forced_box_value k g r c) := rfl

lemma restrictF_none_one {fc : Cell} (hcard : fc.card = 1) :
    restrictF none fc = some fc := by
  rw [restrictF_card_one hcard]

lemma restrictF_some_ne {f fc : Cell} (hcard : fc.card = 1) (hne : f ≠ fc) :
    restrictF (some f) fc = some ∅ := by
  rw [restrictF_card_one hcard]
  simp [hne]

lemma restrictF_some_eqv {f : Cell} (hcard : f.card = 1) :
    restrictF (some f) f = some f := by
  rw [restrictF_card_one hcard]
  simp

/-- C4's code behaviour: one ambiguous group (forced set of two or more
values) drives the accumulator to the empty set. -/
lemma forcing_ambiguous {k : ℕ} {g : SudokuGrid} {r c : ℕ}
    (h : 1 < (forced_row_value k g r c).card ∨ 1 < (forced_col_value k g r c).card ∨
      1 < (forced_box_value k g r c).card) :
    forcingResult k g r c = some ∅ := by
  rw [forcingResult_eq]
  rcases h with h | h | h
  · rw [restrictF_card_gt h, restrictF_empty_absorb, restrictF_empty_absorb]
  · rw [restrictF_card_gt h, restrictF_empty_absorb]
  · rw [restrictF_card_gt h]

lemma calc_of_ambiguous {k : ℕ} {g : SudokuGrid} {r c : ℕ}
    (h : 1 < (forced_row_value k g r c).card ∨ 1 < (forced_col_value k g r c).card ∨
      1 < (forced_box_value k g r c).card) :
    calculate_options k g r c = ∅ := by
  rw [calculate_options_of_some (forcing_ambiguous h), Finset.inter_empty, elimLoop_empty]

/-- C5's code behaviour: two groups forcing distinct singletons drive the
accumulator to the empty set. -/
lemma forcing_conflict {k : ℕ} {g : SudokuGrid} {r c : ℕ}
    (h : ((forced_row_value k g r c).card = 1 ∧ (forced_col_value k g r c).card = 1 ∧
            forced_row_value k g r c ≠ forced_col_value k g r c) ∨
         ((forced_row_value k g r c).card = 1 ∧ (forced_box_value k g r c).card = 1 ∧
            forced_row_value k g r c ≠ forced_box_value k g r c) ∨
         ((forced_col_value k g r c).card = 1 ∧ (forced_box_value k g r c).card = 1 ∧
            forced_col_value k g r c ≠ forced_box_value k g r c)) :
    forcingResult k g r c = some ∅ := by
  rw [forcingResult_eq]
  set frv := forced_row_value k g r c with hfrv
  set fcv := forced_col_value k g r c with hfcv
  set fbv := forced_box_value k g r c with hfbv
  rcases h with ⟨h1, h2, hne⟩ | ⟨h1, h3, hne⟩ | ⟨h2, h3, hne⟩
  · rw [restrictF_none_one h1, restrictF_some_ne h2 hne, restrictF_empty_absorb]
  · rw [restrictF_none_one h1]
    rcases Nat.lt_trichotomy fcv.card 1 with hc | hc | hc
    · have hc0 : fcv.card = 0 := by omega
      rw [restrictF_card_zero hc0, restrictF_some_ne h3 hne]
    · by_cases heq : frv = fcv
      · rw [← heq, restrictF_some_eqv h1, restrictF_some_ne h3 hne]
      · rw [restrictF_some_ne hc heq, restrictF_empty_absorb]
    · rw [restrictF_card_gt hc, restrictF_empty_absorb]
  · rcases Nat.lt_trichotomy frv.card 1 with hr1 | hr1 | hr1
    · have hr0 : frv.card = 0 := by omega
      rw [restrictF_card_zero hr0, restrictF_none_one h2,
        restrictF_some_ne h3 hne]
    · by_cases heq : frv = fcv
      · rw [restrictF_none_one hr1, ← heq, restrictF_some_eqv hr1, heq,
          restrictF_some_ne h3 hne]
      · rw [restrictF_none_one hr1, restrictF_some_ne h2 heq, restrictF_empty_absorb]
    · rw [restrictF_card_gt hr1, restrictF_empty_absorb, restrictF_empty_absorb]

lemma calc_of_conflict {k : ℕ} {g : SudokuGrid} {r c : ℕ}
    (h : ((forced_row_value k g r c).card = 1 ∧ (forced_col_value k g r c).card = 1 ∧
            forced_row_value k g r c ≠ forced_col_value k g r c) ∨
         ((forced_row_value k g r c).card = 1 ∧ (forced_box_value k g r c).card = 1 ∧
            forced_row_value k g r c ≠ forced_box_value k g r c) ∨
         ((forced_col_value k g r c).card = 1 ∧ (forced_box_value k g r c).card = 1 ∧
            forced_col_value k g r c ≠ forced_box_value k g r c)) :
    calculate_options k g r c = ∅ := by
  rw [calculate_options_of_some (forcing_conflict h), Finset.inter_empty, elimLoop_empty]

/-- C3's code behaviour: when at least one group forces a singleton, all
forcing groups agree, and no group is ambiguous, the accumulator is that
agreed singleton. -/
lemma forcing_agreed {k : ℕ} {g : SudokuGrid} {r c : ℕ}
    (hle : (forced_row_value k g r c).card ≤ 1 ∧ (forced_col_value k g r c).card ≤ 1 ∧
      (forced_box_value k g r c).card ≤ 1)
    (hex : (forced_row_value k g r c).card = 1 ∨ (forced_col_value k g r c).card = 1 ∨
      (forced_box_value k g r c).card = 1)
    (ha1 : (forced_row_value k g r c).card = 1 → (forced_col_value k g r c).card = 1 →
      forced_row_value k g r c = forced_col_value k g r c)
    (ha2 : (forced_row_value k g r c).card = 1 → (forced_box_value k g r c).card = 1 →
      forced_row_value k g r c = forced_box_value k g r c)
    (ha3 : (forced_col_value k g r c).card = 1 → (forced_box_value k g r c).card = 1 →
      forced_col_value k g r c = forced_box_value k g r c) :
    ∃ f, (f = forced_row_value k g r c ∨ f = forced_col_value k g r c ∨
          f = forced_box_value k g r c) ∧ f.card = 1 ∧
      forcingResult k g r c = some f := by
  rw [forcingResult_eq]
  set frv := forced_row_value k g r c with hfrv
  set fcv := forced_col_value k g r c with hfcv
  set fbv := forced_box_value k g r c with hfbv
  have c1 : frv.card = 0 ∨ frv.card = 1 := by omega
  have c2 : fcv.card = 0 ∨ fcv.card = 1 := by omega
  have c3 : fbv.card = 0 ∨ fbv.card = 1 := by omega
  rcases c1 with c1 | c1 <;> rcases c2 with c2 | c2 <;> rcases c3 with c3 | c3
  · omega
  · exact ⟨fbv, Or.inr (Or.inr rfl), c3, by
      rw [restrictF_card_zero c1, restrictF_card_zero c2, restrictF_none_one c3]⟩
  · exact ⟨fcv, Or.inr (Or.inl rfl), c2, by
      rw [restrictF_card_zero c1, restrictF_none_one c2, restrictF_card_zero c3]⟩
  · refine ⟨fcv, Or.inr (Or.inl rfl), c2, ?_⟩
    rw [restrictF_card_zero c1, restrictF_none_one c2, ha3 c2 c3, restrictF_some_eqv c3]
  · exact ⟨frv, Or.inl rfl, c1, by
      rw [restrictF_none_one c1, restrictF_card_zero c2, restrictF_card_zero c3]⟩
  · refine ⟨frv, Or.inl rfl, c1, ?_⟩
    rw [restrictF_none_one c1, restrictF_card_zero c2, ha2 c1 c3,
      restrictF_some_eqv c3]
  · refine ⟨frv, Or.inl rfl, c1, ?_⟩
    rw [restrictF_none_one c1, ← ha1 c1 c2, restrictF_some_eqv c1,
      restrictF_card_zero c3]
  · refine ⟨frv, Or.inl rfl, c1, ?_⟩
    rw [restrictF_none_one c1, ← ha1 c1 c2, restrictF_some_eqv c1, ha1 c1 c2,
      ha3 c2 c3, restrictF_some_eqv c3]

/-! ## Parsing -/

lemma seqOptions_all_some {α β : Type} (l : List α) (f : α → Option β) (g : α → β)
    (hfg : ∀ x ∈ l, f x = some (g x)) : seqOptions (l.map f) = some (l.map g) := by
  induction l with
  | nil => rfl
  | cons a t ih =>
    rw [List.map_cons, List.map_cons]
    show (match f a with
      | none => none
      | some v =>
        match seqOptions (t.map f) with
        | none => none
        | some vs => some (v :: vs)) = some (g a :: t.map g)
    rw [hfg a (by simp), ih (fun x hx => hfg x (by simp [hx]))]

/-- A line of the right alphabet parses, blanks to the full range
`{1..L}` for the line length `L` and digits to singletons. -/
lemma parse_line_all_valid {N : ℕ} (line : List Char) (hlen : line.length = N)
    (hch : ∀ ch ∈ line, ch = '_' ∨ ch.isDigit) :
    parse_line line = some (line.map (fun ch =>
      if ch = '_' then Finset.Icc 1 N else {ch.toNat - 48})) := by
  unfold parse_line
  rw [hlen]
  apply seqOptions_all_some
  intro ch hmem
  rcases hch ch hmem with rfl | hd
  · simp
  · by_cases hu : ch = '_' <;> simp [hu, hd]

/-- A puzzle whose nonempty lines all have length `N` over the blank/digit
alphabet parses without error, blanks to `{1..N}` and digits to
singletons. -/
lemma parse_puzzle_all_valid (s : String) (N : ℕ)
    (hlen : ∀ l ∈ puzzleLines s, l.length = N)
    (hch : ∀ l ∈ puzzleLines s, ∀ ch ∈ l, ch = '_' ∨ ch.isDigit) :
    parse_puzzle s = some ((puzzleLines s).map
      (fun l => l.map (fun ch =>
        if ch = '_' then Finset.Icc 1 N else {ch.toNat - 48}))) := by
  unfold parse_puzzle
  apply seqOptions_all_some
  intro l hl
  exact parse_line_all_valid _ (hlen l hl) (hch l hl)

lemma isqrtAux_sq {k : ℕ} : ∀ m, k ≤ m → isqrtAux m (k * k) = k := by
  intro m
  induction m with
  | zero => intro h; interval_cases k; rfl
  | succ n ih =>
    intro h
    by_cases hk : k = n + 1
    · subst hk
      simp [isqrtAux]
    · have hkn : k ≤ n := by omega
      have hno : ¬ (n + 1) * (n + 1) ≤ k * k := by
        have h1 : k * k ≤ n * n := Nat.mul_le_mul hkn hkn
        have h2 : n * n < (n + 1) * (n + 1) :=
          Nat.mul_self_lt_mul_self (Nat.lt_succ_self n)
        omega
      rw [isqrtAux, if_neg hno]
      exact ih hkn

/-- `math.isqrt (k * k) = k`. -/
lemma isqrt_sq (k : ℕ) : isqrt (k * k) = k := by
  unfold isqrt
  apply isqrtAux_sq
  cases k with
  | zero => simp
  | succ n => calc n + 1 = (n + 1) * 1 := by omega
      _ ≤ (n + 1) * (n + 1) := Nat.mul_le_mul_left _ (by omega)

lemma mem_sortCands {s : Cell} {v : ℕ} : v ∈ sortCands s ↔ v ∈ s := by
  unfold sortCands
  simp only [List.mem_filter, List.mem_range, decide_eq_true_eq]
  constructor
  · exact fun h => h.2
  · intro h
    refine ⟨?_, h⟩
    have := Finset.le_sup (f := id) h
    simp at this
    omega

/-! ## Concrete grids -/

/-- The parsed blank 4×4 puzzle: every cell holds the full range. -/
def blankGrid4 : SudokuGrid := List.replicate 4 (List.replicate 4 (Finset.Icc 1 4))

/-- A grid whose cell (0,0) is forced to `{1}` by its row while `1` is the
sole candidate of the column peer (1,0). -/
def forcedGrid4 : SudokuGrid :=
  [[{1, 2}, {2, 3}, {3, 4}, {2, 4}],
   [{1}, {3, 4}, {1, 2}, {2, 3}],
   [{2, 3}, {1, 2}, {3, 4}, {1, 4}],
   [{3, 4}, {1, 4}, {2, 4}, {1, 3}]]

/-- A grid whose cell (0,0) gets an ambiguous row forcing signal
(`forced = {1, 2}`, two values) and has no determined peer. -/
def ambiguousGrid4 : SudokuGrid :=
  [[{1, 2}, {3, 4}, {3, 4}, {3, 4}],
   [{3, 4}, {3, 4}, {3, 4}, {3, 4}],
   [{3, 4}, {3, 4}, {3, 4}, {3, 4}],
   [{3, 4}, {3, 4}, {3, 4}, {3, 4}]]

/-- A valid fixpoint grid of undetermined pair cells: the branching state
used to exercise the search engine's collapse step. -/
def pairGrid4 : SudokuGrid :=
  [[{1, 2}, {1, 2}, {3, 4}, {3, 4}],
   [{3, 4}, {3, 4}, {1, 2}, {1, 2}],
   [{1, 2}, {1, 2}, {3, 4}, {3, 4}],
   [{3, 4}, {3, 4}, {1, 2}, {1, 2}]]

/-- The puzzle whose cell (0,0) is row-forced to `{1}` and column-forced
to `{2}`: a two-digit inconsistency in overlapping groups. -/
def conflictPuzzle : String := "_234\n1___\n3___\n4___"

/-- The parse of `conflictPuzzle`. -/
def conflictGrid4 : SudokuGrid :=
  [[Finset.Icc 1 4, {2}, {3}, {4}],
   [{1}, Finset.Icc 1 4, Finset.Icc 1 4, Finset.Icc 1 4],
   [{3}, Finset.Icc 1 4, Finset.Icc 1 4, Finset.Icc 1 4],
   [{4}, Finset.Icc 1 4, Finset.Icc 1 4, Finset.Icc 1 4]]

/-- The parse of `"1___\n____\n____\n____"`: one given at (0,0). -/
def oneGivenGrid4 : SudokuGrid :=
  [[{1}, Finset.Icc 1 4, Finset.Icc 1 4, Finset.Icc 1 4],
   [Finset.Icc 1 4, Finset.Icc 1 4, Finset.Icc 1 4, Finset.Icc 1 4],
   [Finset.Icc 1 4, Finset.Icc 1 4, Finset.Icc 1 4, Finset.Icc 1 4],
   [Finset.Icc 1 4, Finset.Icc 1 4, Finset.Icc 1 4, Finset.Icc 1 4]]

lemma totalCount_pos {k : ℕ} {g : SudokuGrid} {r c : ℕ} (hw : wellformed k g)
    (hr : r < k * k) (hc : c < k * k) (hne : get g r c ≠ ∅) : 1 ≤ totalCount g := by
  have h1 := hw.1
  have hr' : r < g.length := by omega
  have hrow : g[r] ∈ g := List.getElem_mem hr'
  have hlenrow : g[r].length = k * k := hw.2 _ hrow
  have hc' : c < g[r].length := by omega
  have hcell : g[r][c] ∈ g[r] := List.getElem_mem hc'
  have hget : get g r c = g[r][c] := by
    rw [get_def, getD_lt _ _ hr', getD_lt _ _ hc']
  have hcard : 1 ≤ (g[r][c]).card := by
    rw [← hget]
    exact Finset.card_pos.mpr (Finset.nonempty_iff_ne_empty.mpr hne)
  have h2 : (g[r][c]).card ≤ (g[r].map Finset.card).sum :=
    List.single_le_sum (fun x _ => Nat.zero_le x) _ (List.mem_map_of_mem _ hcell)
  have h3 : (g[r].map Finset.card).sum ≤ totalCount g := by
    unfold totalCount
    exact List.single_le_sum (fun x _ => Nat.zero_le x) _ (List.mem_map_of_mem _ hrow)
  omega

/-- A conflicting pair of forced singletons empties the cell, kills the
simplification loop, and makes the top-level solve report no solution. -/
lemma conflict_no_solution {k : ℕ} {g : SudokuGrid} {r c : ℕ} (hw : wellformed k g)
    (hr : r < k * k) (hc : c < k * k)
    (hconf : ((forced_row_value k g r c).card = 1 ∧ (forced_col_value k g r c).card = 1 ∧
            forced_row_value k g r c ≠ forced_col_value k g r c) ∨
         ((forced_row_value k g r c).card = 1 ∧ (forced_box_value k g r c).card = 1 ∧
            forced_row_value k g r c ≠ forced_box_value k g r c) ∨
         ((forced_col_value k g r c).card = 1 ∧ (forced_box_value k g r c).card = 1 ∧
            forced_col_value k g r c ≠ forced_box_value k g r c)) :
    calculate_options k g r c = ∅ ∧ simplifyRun k g = none ∧
      ∀ s, parse_puzzle s = some g → solve s = some "No solution" := by
  have hcalc := calc_of_conflict hconf
  have hVne : get g r c ≠ ∅ := by
    have hf : ∃ f, f ⊆ get g r c ∧ f.card = 1 := by
      rcases hconf with ⟨h1, -, -⟩ | ⟨h1, -, -⟩ | ⟨h1, -, -⟩
      · exact ⟨forced_row_value k g r c, Finset.sdiff_subset, h1⟩
      · exact ⟨forced_row_value k g r c, Finset.sdiff_subset, h1⟩
      · exact ⟨forced_col_value k g r c, Finset.sdiff_subset, h1⟩
    rcases hf with ⟨f, hsub, hcard⟩
    intro h0
    rw [h0, Finset.subset_empty] at hsub
    rw [hsub] at hcard
    simp at hcard
  have hg2cell : get (propagate_constraints k g) r c = ∅ := by
    rw [get_propagate g hr hc]; exact hcalc
  have hg2invalid : ¬ is_valid (propagate_constraints k g) := fun hval =>
    is_valid_get (wellformed_propagate k g) hval hr hc hg2cell
  have hne2 : propagate_constraints k g ≠ g := by
    intro heq
    apply hVne
    have hcg := congrArg (fun gg => get gg r c) heq
    simp only at hcg
    rw [hg2cell] at hcg
    exact hcg.symm
  have hrun : simplifyRun k g = none := by
    have htc := totalCount_pos hw hr hc hVne
    apply simplifyRun_none_of_aux
    obtain ⟨m, hm⟩ : ∃ m, totalCount g = m + 1 := ⟨totalCount g - 1, by omega⟩
    rw [hm]
    by_cases hval : is_valid g
    · simp only [simplifyAux]
      rw [if_pos hval, if_neg hne2]
      rw [if_neg hg2invalid]
    · simp only [simplifyAux]
      rw [if_neg hval]
  refine ⟨hcalc, hrun, ?_⟩
  intro s hs
  have hlen : isqrt g.length = k := by rw [hw.1, isqrt_sq]
  simp only [solve, hs, Option.map_some', hlen, hrun]

/-! ## The claims -/

/-- C1 (code bug): the claim that every grid the search yields is a
complete valid solution fails on the code.  For the blank 4×4 puzzle the
parsed all-candidate grid is already a propagation fixpoint, and
`find_minimum_set` never selects a cell of size exactly `N` because its
bound `sofar` starts at `N` with a strict comparison, so `solve` yields
the unsolved all-candidate grid and the top-level solve returns the blank
puzzle text as its "solution". -/
theorem c1_blank_puzzle_incomplete_yield :
    parse_puzzle "____\n____\n____\n____" = some blankGrid4 ∧
    simplifyRun 2 blankGrid4 = some blankGrid4 ∧
    solveFuel 2 (totalCount blankGrid4 + 1) blankGrid4 = [blankGrid4] ∧
    ¬ completeSolution 2 blankGrid4 ∧
    solve "____\n____\n____\n____" = some "____\n____\n____\n____" :=
  ⟨by decide, by decide, by decide, by decide, by decide⟩

/-- C2 counterexample: the all-candidate 4×4 grid has a cell of size
`4 ≥ 2`, yet `find_minimum_set` returns `None` — refuting "returns None
exactly when no cell has candidate-set size ≥ 2 (including size exactly
N)". -/
theorem c2_counterexample :
    wellformed 2 blankGrid4 ∧ 2 ≤ (get blankGrid4 0 0).card ∧
    find_minimum_set 4 blankGrid4 = none := by decide

/-- C2 (amended): on a well-formed grid, `find_minimum_set` returns `None`
exactly when no cell's size lies in `[2, N)` (full cells of size exactly
`N` are never selectable), and otherwise returns the first cell in
row-major order whose size is minimal among the sizes `≥ 2`, with ties
broken by the earliest cell in row-major order. -/
theorem c2_find_minimum_set_first_min {k : ℕ} {g : SudokuGrid}
    (hw : wellformed k g) :
    (find_minimum_set (k * k) g = none ↔
      ∀ r' < k * k, ∀ c' < k * k,
        ¬(2 ≤ (get g r' c').card ∧ (get g r' c').card < k * k)) ∧
    (∀ r c, find_minimum_set (k * k) g = some (r, c) →
      r < k * k ∧ c < k * k ∧
      2 ≤ (get g r c).card ∧ (get g r c).card < k * k ∧
      (∀ r' < k * k, ∀ c' < k * k, 2 ≤ (get g r' c').card →
        (get g r' c').card < k * k → (get g r c).card ≤ (get g r' c').card) ∧
      (∀ r' < k * k, ∀ c' < k * k, lexLT (r', c') (r, c) →
        ¬(2 ≤ (get g r' c').card ∧ (get g r' c').card ≤ (get g r c).card))) := by
  refine ⟨find_minimum_set_none_iff hw, fun r c h => ?_⟩
  obtain ⟨h1, h2, h3, h4, h5, h6⟩ := find_minimum_set_some hw h
  exact ⟨h1, h2, h3, h4, fun r' hr' c' hc' ha _ => h5 r' hr' c' hc' ha, h6⟩

/-- C2 witness: the amended characterisation evaluated on the
all-candidate grid. -/
theorem c2_witness :
    wellformed 2 blankGrid4 ∧
    (find_minimum_set (2 * 2) blankGrid4 = none ↔
      ∀ r' < 2 * 2, ∀ c' < 2 * 2,
        ¬(2 ≤ (get blankGrid4 r' c').card ∧ (get blankGrid4 r' c').card < 2 * 2)) :=
  ⟨by decide, (c2_find_minimum_set_first_min (by decide)).1⟩

/-- C3 counterexample: in `forcedGrid4` the row group of cell (0,0) forces
the singleton `{1}`, the other two groups produce no signal, yet
`calculate_options` returns `∅` rather than `V ∩ {1} = {1}`, because
naked-single elimination is still applied afterwards and the column peer
(1,0) holds `{1}`. -/
theorem c3_counterexample :
    forced_row_value 2 forcedGrid4 0 0 = {1} ∧
    forced_col_value 2 forcedGrid4 0 0 = ∅ ∧
    forced_box_value 2 forcedGrid4 0 0 = ∅ ∧
    get forcedGrid4 1 0 = {1} ∧
    get forcedGrid4 0 0 ∩ {1} = {1} ∧
    calculate_options 2 forcedGrid4 0 0 ≠ get forcedGrid4 0 0 ∩ {1} := by decide

/-- C3 (amended): when at least one peer group forces a well-defined
singleton, all forcing groups agree and no group is ambiguous, the
computation does not stop at `V ∩ {v}`: `calculate_options` still applies
naked-single elimination to `V ∩ {v}`, so the result is
`elimLoop (V ∩ {v})` over the three groups (and in particular `∅` when
`v` is the sole candidate of a peer in another group). -/
theorem c3_forced_singleton_still_eliminated {k : ℕ} {g : SudokuGrid} {r c : ℕ}
    (hle : (forced_row_value k g r c).card ≤ 1 ∧ (forced_col_value k g r c).card ≤ 1 ∧
      (forced_box_value k g r c).card ≤ 1)
    (hex : (forced_row_value k g r c).card = 1 ∨ (forced_col_value k g r c).card = 1 ∨
      (forced_box_value k g r c).card = 1)
    (ha1 : (forced_row_value k g r c).card = 1 → (forced_col_value k g r c).card = 1 →
      forced_row_value k g r c = forced_col_value k g r c)
    (ha2 : (forced_row_value k g r c).card = 1 → (forced_box_value k g r c).card = 1 →
      forced_row_value k g r c = forced_box_value k g r c)
    (ha3 : (forced_col_value k g r c).card = 1 → (forced_box_value k g r c).card = 1 →
      forced_col_value k g r c = forced_box_value k g r c) :
    ∃ f, (f = forced_row_value k g r c ∨ f = forced_col_value k g r c ∨
          f = forced_box_value k g r c) ∧ f.card = 1 ∧
      calculate_options k g r c = elimLoop (get g r c ∩ f) (value_groups k g r c) := by
  obtain ⟨f, hor, hcard, hres⟩ := forcing_agreed hle hex ha1 ha2 ha3
  exact ⟨f, hor, hcard, calculate_options_of_some hres⟩

/-- C3 witness: the amended claim evaluated on `forcedGrid4`. -/
theorem c3_witness :
    (forced_row_value 2 forcedGrid4 0 0).card = 1 ∧
    (∃ f, (f = forced_row_value 2 forcedGrid4 0 0 ∨
           f = forced_col_value 2 forcedGrid4 0 0 ∨
           f = forced_box_value 2 forcedGrid4 0 0) ∧ f.card = 1 ∧
      calculate_options 2 forcedGrid4 0 0 =
        elimLoop (get forcedGrid4 0 0 ∩ f) (value_groups 2 forcedGrid4 0 0)) :=
  ⟨by decide, c3_forced_singleton_still_eliminated (by decide) (Or.inl (by decide))
    (by decide) (by decide) (by decide)⟩

/-- C4 counterexample: in `ambiguousGrid4` the row forcing signal of cell
(0,0) is the two-element set `{1, 2}` (ambiguous) and there are no
determined peers, so the claim predicts a fall-through to elimination
leaving the non-empty set `{1, 2}` — yet `calculate_options` returns `∅`:
an ambiguous group alone empties the cell. -/
theorem c4_counterexample :
    1 < (forced_row_value 2 ambiguousGrid4 0 0).card ∧
    get ambiguousGrid4 0 0 ≠ ∅ ∧
    elimLoop (get ambiguousGrid4 0 0) (value_groups 2 ambiguousGrid4 0 0)
      = get ambiguousGrid4 0 0 ∧
    calculate_options 2 ambiguousGrid4 0 0 = ∅ := by decide

/-- C4 (amended): a peer group whose forced set holds more than one value
does not leave the accumulated forced value unchanged — it resets it to
the empty set, and `calculate_options` then returns `V ∩ ∅ = ∅` without
reaching naked-single elimination. -/
theorem c4_ambiguous_group_empties_cell {k : ℕ} {g : SudokuGrid} {r c : ℕ}
    (h : 1 < (forced_row_value k g r c).card ∨ 1 < (forced_col_value k g r c).card ∨
      1 < (forced_box_value k g r c).card) :
    calculate_options k g r c = ∅ :=
  calc_of_ambiguous h

/-- C4 witness: the amended claim evaluated on `ambiguousGrid4`. -/
theorem c4_witness :
    1 < (forced_row_value 2 ambiguousGrid4 0 0).card ∧
    calculate_options 2 ambiguousGrid4 0 0 = ∅ :=
  ⟨by decide, c4_ambiguous_group_empties_cell (Or.inl (by decide))⟩

/-- C5: two peer groups forcing distinct well-defined singletons empty the
cell, the simplification loop then reports contradiction (no fixpoint is
yielded), and the top-level solve of any puzzle parsing to such a grid
reports "No solution". -/
theorem c5_conflicting_singletons_no_solution {k : ℕ} {g : SudokuGrid} {r c : ℕ}
    (hw : wellformed k g) (hr : r < k * k) (hc : c < k * k)
    (hconf : ((forced_row_value k g r c).card = 1 ∧ (forced_col_value k g r c).card = 1 ∧
            forced_row_value k g r c ≠ forced_col_value k g r c) ∨
         ((forced_row_value k g r c).card = 1 ∧ (forced_box_value k g r c).card = 1 ∧
            forced_row_value k g r c ≠ forced_box_value k g r c) ∨
         ((forced_col_value k g r c).card = 1 ∧ (forced_box_value k g r c).card = 1 ∧
            forced_col_value k g r c ≠ forced_box_value k g r c)) :
    calculate_options k g r c = ∅ ∧ simplifyRun k g = none ∧
      ∀ s, parse_puzzle s = some g → solve s = some "No solution" :=
  conflict_no_solution hw hr hc hconf

/-- C5 witness: the conflict puzzle (row forces `{1}`, column forces
`{2}` at cell (0,0)) resolves to "No solution". -/
theorem c5_witness :
    wellformed 2 conflictGrid4 ∧ solve conflictPuzzle = some "No solution" :=
  ⟨by decide,
    (@c5_conflicting_singletons_no_solution 2 conflictGrid4 0 0 (by decide) (by decide)
      (by decide) (Or.inl (by decide))).2.2 conflictPuzzle (by decide)⟩

/-- C6 counterexample: the claim requires a `FormatError` when line
lengths differ, but `Puzzle.__init__` performs no validation: the
two-line input with lengths 2 and 1 parses successfully. -/
theorem c6_counterexample :
    parse_puzzle "12\n3" = some [[{1}, {2}], [{3}]] ∧
    (puzzleLines "12\n3").map List.length = [2, 1] := by decide

/-- C6 (amended): parsing never raises any error for well-shaped alphabets
— there is no `FormatError` and no validation of line lengths, line count
or squareness; each nonempty line is parsed independently, a blank to the
full range `{1..L}` of the line's own length and a digit to a singleton.
When every line has length `N`, blanks therefore map to `{1..N}` and
givens to singletons. -/
theorem c6_parse_no_validation (s : String) (N : ℕ)
    (hlen : ∀ l ∈ puzzleLines s, l.length = N)
    (hch : ∀ l ∈ puzzleLines s, ∀ ch ∈ l, ch = '_' ∨ ch.isDigit) :
    parse_puzzle s = some ((puzzleLines s).map
      (fun l => l.map (fun ch =>
        if ch = '_' then Finset.Icc 1 N else {ch.toNat - 48}))) :=
  parse_puzzle_all_valid s N hlen hch

/-- C6 witness: the amended claim evaluated on a 2×2 puzzle. -/
theorem c6_witness :
    parse_puzzle "_1\n2_" = some ((puzzleLines "_1\n2_").map
      (fun l => l.map (fun ch =>
        if ch = '_' then Finset.Icc 1 2 else {ch.toNat - 48}))) :=
  c6_parse_no_validation "_1\n2_" 2 (by decide) (by decide)

/-- C7: on a well-formed grid the simplification loop terminates within
`totalCount g + 1` iterations, yields at most one result; a yielded grid
is a valid fixpoint of the propagation sequence, nothing is yielded only
when some grid of the sequence holds an empty cell, and the termination
measure (the total candidate count) strictly decreases across every
non-fixpoint step. -/
theorem c7_simplify_terminates {k : ℕ} {g : SudokuGrid} (hw : wellformed k g) :
    (simplifyAux k (totalCount g + 1) g).isSome ∧
    (∀ h, simplifyAux k (totalCount g + 1) g = some (some h) →
      propagate_constraints k h = h ∧ is_valid h ∧ ∃ j, h = iterProp k j g) ∧
    (simplifyAux k (totalCount g + 1) g = some none →
      ∃ j, ¬ is_valid (iterProp k j g)) ∧
    ((∀ j, is_valid (iterProp k j g)) → ∃ h, simplifyRun k g = some h) ∧
    (propagate_constraints k g ≠ g →
      totalCount (propagate_constraints k g) < totalCount g) := by
  refine ⟨simplifyAux_isSome _ _ hw (by omega),
    fun h heq => simplifyAux_some_some _ _ _ heq,
    fun heq => simplifyAux_some_none _ _ heq, ?_,
    fun hne => propagate_count_lt hw hne⟩
  intro hall
  have hs := simplifyAux_isSome (totalCount g + 1) g hw (by omega)
  cases haux : simplifyAux k (totalCount g + 1) g with
  | none => rw [haux] at hs; simp at hs
  | some o =>
    cases o with
    | none =>
      rcases simplifyAux_some_none _ _ haux with ⟨j, hj⟩
      exact absurd (hall j) hj
    | some h =>
      refine ⟨h, ?_⟩
      unfold simplifyRun
      rw [haux]

/-- C7 witness: termination and the fixpoint property on the blank 4×4
grid. -/
theorem c7_witness :
    wellformed 2 blankGrid4 ∧
    (simplifyAux 2 (totalCount blankGrid4 + 1) blankGrid4).isSome :=
  ⟨by decide, (c7_simplify_terminates (by decide)).1⟩

/-- C8: the deduction rule only narrows each cell, hence propagation never
grows any cell, the total candidate count never increases, and it strictly
decreases between a non-fixpoint grid and its successor. -/
theorem c8_monotone_shrink (k : ℕ) (g : SudokuGrid) :
    (∀ r c, calculate_options k g r c ⊆ get g r c) ∧
    (wellformed k g →
      (∀ r c, r < k * k → c < k * k →
        get (propagate_constraints k g) r c ⊆ get g r c) ∧
      totalCount (propagate_constraints k g) ≤ totalCount g ∧
      (propagate_constraints k g ≠ g →
        totalCount (propagate_constraints k g) < totalCount g)) := by
  refine ⟨fun r c => calculate_options_subset k g r c,
    fun hw => ⟨?_, propagate_count_le hw, fun hne => propagate_count_lt hw hne⟩⟩
  intro r c hr hc
  rw [get_propagate g hr hc]
  exact calculate_options_subset k g r c

/-- C8 witness: monotone shrinking evaluated on the one-given 4×4 grid. -/
theorem c8_witness :
    wellformed 2 oneGivenGrid4 ∧
    totalCount (propagate_constraints 2 oneGivenGrid4) ≤ totalCount oneGivenGrid4 :=
  ⟨by decide, ((c8_monotone_shrink 2 oneGivenGrid4).2 (by decide)).2.1⟩

/-- C9: in the candidate loop of `solve`, collapsing the selected cell
changes no other cell of the branching grid, and the collapsed grid is
never again a propagation fixpoint — so the recursive call's `simplify`
always hands back freshly propagated grids (never an alias of the
branching grid, the one case where Python's in-place `set_choice` could
leak into a sibling iteration), and each sibling iteration observes the
branching grid unchanged except at the selected cell. -/
theorem c9_branching_grid_isolation {k : ℕ} {g : SudokuGrid} {r c : ℕ}
    (hw : wellformed k g)
    (hfix : propagate_constraints k g = g)
    (hmin : find_minimum_set (k * k) g = some (r, c)) :
    (∀ v r' c', ¬(r' = r ∧ c' = c) →
      get (set_choice g r c v) r' c' = get g r' c') ∧
    (∀ v ∈ get g r c,
      propagate_constraints k (set_choice g r c v) ≠ set_choice g r c v) :=
  ⟨fun v _ _ hne => get_set_choice_ne v hne,
   fun _ hv => collapse_not_fixpoint hw hfix hmin hv⟩

/-- C9 witness: the pair grid is a valid fixpoint whose selected cell is
(0,0); collapsing it to 1 destroys the fixpoint. -/
theorem c9_witness :
    wellformed 2 pairGrid4 ∧
    propagate_constraints 2 (set_choice pairGrid4 0 0 1) ≠ set_choice pairGrid4 0 0 1 :=
  ⟨by decide,
    (@c9_branching_grid_isolation 2 pairGrid4 0 0 (by decide) (by decide)
      (by decide)).2 1 (by decide)⟩

/-- C10: every cell that is a singleton `{v}` in the parsed input grid is
still `{v}` in every grid the search yields; and the deduction rule never
rewrites a singleton cell into a different non-empty set — it either keeps
it or empties it (pruning the branch). -/
theorem c10_givens_preserved {k : ℕ} {s : String} {g : SudokuGrid} {r c v : ℕ}
    (_hp : parse_puzzle s = some g) (hw : wellformed k g)
    (hr : r < k * k) (hc : c < k * k) (hcell : get g r c = {v}) :
    (∀ n h, h ∈ solveFuel k n g → get h r c = {v}) ∧
    (∀ (g2 : SudokuGrid) (r2 c2 w : ℕ), get g2 r2 c2 = {w} →
      calculate_options k g2 r2 c2 = {w} ∨ calculate_options k g2 r2 c2 = ∅) :=
  ⟨fun n h hmem => solveFuel_singleton hr hc n g hw hcell h hmem,
   fun _ _ _ _ hcell2 => calculate_options_singleton hcell2⟩

/-- C10 witness: the given `1` at cell (0,0) of the one-given puzzle is
kept in every yielded grid. -/
theorem c10_witness :
    parse_puzzle "1___\n____\n____\n____" = some oneGivenGrid4 ∧
    (∀ n h, h ∈ solveFuel 2 n oneGivenGrid4 → get h 0 0 = {1}) :=
  ⟨by decide,
    (@c10_givens_preserved 2 "1___\n____\n____\n____" oneGivenGrid4 0 0 1
      (by decide) (by decide) (by decide) (by decide) (by decide)).1⟩
